import Mathlib

/-!
# Verification of the FAR archive codec (`src/farlib.rs`)

Shallow embedding of the single source file `farlib.rs` of `libfar-rs`.

Conventions of the embedding:
* Rust byte buffers (`Vec<u8>`, `&[u8]`) are `List Nat` whose elements are
  meant to be `< 256`; serialisation only ever produces such elements.
* Rust `String`s are represented by their UTF-8 byte sequences (`List Nat`);
  `String::from_utf8` becomes a run of the executable validator `utf8Valid`.
* `u32` arithmetic is `Nat` arithmetic reduced `% 4294967296` exactly where the
  Rust code performs a `u32` operation or an `as u32` cast.
* A Rust panic (`unwrap`, `expect`, out-of-bounds slice or index) is an
  explicit result: `PResult.panic` for `test` / `list_files` (which can also
  return a caller-visible `Err` of type `String`), and `Option.none` for the
  functions whose Rust type has no error channel at all
  (`FarFile::new_from_archive`, `FarArchive::load_file_data`,
  `FarArchive::to_vec`).
-/

/-- The modulus of Rust `u32` arithmetic. -/
def U32 : Nat := 4294967296

/-- Source `farlib.rs` line 6: file metadata as read from the manifest. -/
structure FarFileInfo where
  name : List Nat
  size : Nat
  offset : Nat
deriving Repr, DecidableEq

/-- Source `farlib.rs` line 31: a file together with its data bytes. -/
structure FarFile where
  name : List Nat
  size : Nat
  data : List Nat
deriving Repr, DecidableEq

/-- Source `farlib.rs` line 42: the in-memory archive. -/
structure FarArchive where
  version : Nat
  file_count : Nat
  file_list : List FarFileInfo
  file_data : List FarFile
deriving Repr, DecidableEq

/-- Result of a Rust function returning `Result<α, String>` whose body may
also panic: `ok`/`err` are the two caller-visible outcomes, `panic` models a
process abort (`unwrap`/`expect` failure or slice panic). -/
inductive PResult (α : Type) where
  | ok : α → PResult α
  | err : String → PResult α
  | panic : PResult α
deriving Repr, DecidableEq

/-- Rust `u32::to_le_bytes`: four little-endian bytes (the `% 256` projections
realise the truncation `% 2^32` of any wider value). -/
def toLE4 (n : Nat) : List Nat :=
  [n % 256, n / 256 % 256, n / 65536 % 256, n / 16777216 % 256]

/-- Rust `u32::from_le_bytes` on a 4-byte list. -/
def fromLE4 (l : List Nat) : Nat :=
  match l with
  | [a, b, c, d] => a + 256 * b + 65536 * c + 16777216 * d
  | _ => 0

/-- Rust `BufReader::read_exact` of `k` bytes at absolute position `pos` of
`file`: succeeds exactly when `k` bytes are available. -/
def readN (file : List Nat) (pos k : Nat) : Option (List Nat) :=
  if pos + k ≤ file.length then some ((file.drop pos).take k) else none

/-- The 8 magic bytes, ASCII `"FAR!byAZ"` (`farlib.rs` lines 186, 253). -/
def farMagic : List Nat := [70, 65, 82, 33, 98, 121, 65, 90]

/-- Is `b` a UTF-8 continuation byte (`0x80..=0xBF`)? -/
def utf8Cont (b : Nat) : Bool := 128 ≤ b && b ≤ 191

/-- Exact criterion of the Rust function `String::from_utf8` (`farlib.rs` line 299):
well-formed UTF-8 — no overlong forms, no surrogates, nothing above
`U+10FFFF`. -/
def utf8Valid : List Nat → Bool
  | [] => true
  | b :: rest =>
    if b ≤ 127 then utf8Valid rest
    else if b ≤ 193 then false
    else if b ≤ 223 then
      match rest with
      | b1 :: r => utf8Cont b1 && utf8Valid r
      | [] => false
    else if b = 224 then
      match rest with
      | b1 :: b2 :: r => (160 ≤ b1 && b1 ≤ 191) && utf8Cont b2 && utf8Valid r
      | _ => false
    else if b ≤ 236 then
      match rest with
      | b1 :: b2 :: r => utf8Cont b1 && utf8Cont b2 && utf8Valid r
      | _ => false
    else if b = 237 then
      match rest with
      | b1 :: b2 :: r => (128 ≤ b1 && b1 ≤ 159) && utf8Cont b2 && utf8Valid r
      | _ => false
    else if b ≤ 239 then
      match rest with
      | b1 :: b2 :: r => utf8Cont b1 && utf8Cont b2 && utf8Valid r
      | _ => false
    else if b = 240 then
      match rest with
      | b1 :: b2 :: b3 :: r =>
          (144 ≤ b1 && b1 ≤ 191) && utf8Cont b2 && utf8Cont b3 && utf8Valid r
      | _ => false
    else if b ≤ 243 then
      match rest with
      | b1 :: b2 :: b3 :: r =>
          utf8Cont b1 && utf8Cont b2 && utf8Cont b3 && utf8Valid r
      | _ => false
    else if b = 244 then
      match rest with
      | b1 :: b2 :: b3 :: r =>
          (128 ≤ b1 && b1 ≤ 143) && utf8Cont b2 && utf8Cont b3 && utf8Valid r
      | _ => false
    else false

/-- Source `FarFile::new_from_archive` (`farlib.rs` line 61): slices
`original_file[offset .. offset+size]` (the `+` is a `u32` addition, hence
the `% U32`) and copies it; `none` models the panic when the range is out of
bounds. -/
def new_from_archive (name : List Nat) (size offset : Nat) (original_file : List Nat) :
    Option FarFile :=
  let e := (offset + size) % U32
  if offset ≤ e ∧ e ≤ original_file.length then
    some ⟨name, size, (original_file.drop offset).take (e - offset)⟩
  else none

/-- Source `FarFile::new_from_file` (`farlib.rs` line 81). -/
def new_from_file (name : List Nat) (size : Nat) (data : List Nat) : FarFile :=
  ⟨name, size, data⟩

/-- The loop of `new_from_files` (`farlib.rs` lines 117-126): `offset` is a
`u32` running total of the sizes, incremented *before* the entry is pushed. -/
def buildList (files : List FarFile) (offset : Nat) : List FarFileInfo :=
  match files with
  | [] => []
  | f :: rest =>
    let off := (offset + f.size) % U32
    ⟨f.name, f.size, off⟩ :: buildList rest off

/-- Source `FarArchive::new_from_files` (`farlib.rs` line 114). -/
def new_from_files (files : List FarFile) : FarArchive :=
  ⟨1, files.length % U32, buildList files 0, files⟩

/-- The loop of `load_file_data` (`farlib.rs` lines 153-160): hydrate every
entry of the manifest list; any slice panic aborts (`none`). -/
def loadAll (infos : List FarFileInfo) (original_file : List Nat) :
    Option (List FarFile) :=
  match infos with
  | [] => some []
  | e :: rest =>
    match new_from_archive e.name e.size e.offset original_file with
    | none => none
    | some f =>
      match loadAll rest original_file with
      | none => none
      | some fs => some (f :: fs)

/-- Source `FarArchive::load_file_data` (`farlib.rs` line 151). -/
def load_file_data (a : FarArchive) (original_file : List Nat) :
    Option FarArchive :=
  match loadAll a.file_list original_file with
  | none => none
  | some fd => some ⟨a.version, a.file_count, a.file_list, fd⟩

/-- The local `file_list` built inside `to_vec` (`farlib.rs` lines 193-205):
entries derived from `file_data` with offsets starting at `bytes_written = 16`
and advanced by the size of each file (`u32` addition). -/
def writeList (files : List FarFile) (bytesWritten : Nat) : List FarFileInfo :=
  match files with
  | [] => []
  | f :: rest =>
    ⟨f.name, f.size, bytesWritten⟩ :: writeList rest ((bytesWritten + f.size) % U32)

/-- One manifest record (`farlib.rs` lines 212-216): size twice, offset, name
byte length (`as u32` cast), name bytes. -/
def entryBytes (e : FarFileInfo) : List Nat :=
  toLE4 e.size ++ toLE4 e.size ++ toLE4 e.offset ++ toLE4 e.name.length ++ e.name

/-- The manifest loop of `to_vec` (`farlib.rs` lines 211-217): iterates the
index `i` over `0..n` where `n` is the length of the *stored* `file_list`,
but indexes the *local* list `loc`; `none` models the index-out-of-bounds
panic. The last argument is the remaining iteration count `n - i`. -/
def manifestLoop (loc : List FarFileInfo) (i : Nat) : Nat → Option (List Nat)
  | 0 => some []
  | k + 1 =>
    match loc[i]? with
    | none => none
    | some e =>
      match manifestLoop loc (i + 1) k with
      | none => none
      | some rest => some (entryBytes e ++ rest)

/-- Source `FarArchive::to_vec` (`farlib.rs` line 183): header, data region,
manifest; `none` models the panic of the manifest loop. -/
def to_vec (a : FarArchive) : Option (List Nat) :=
  let fileData := (a.file_data.map (·.data)).flatten
  let loc := writeList a.file_data 16
  let bytesWritten := a.file_data.foldl (fun acc f => (acc + f.size) % U32) 16
  match manifestLoop loc 0 a.file_list.length with
  | none => none
  | some entriesB =>
    some (farMagic ++ toLE4 a.version ++ toLE4 bytesWritten ++ fileData ++
          toLE4 a.file_count ++ entriesB)

/-- The per-file loop of `list_files` (`farlib.rs` lines 283-303), reading
`n` manifest records starting at absolute position `pos`; every
`read_exact ... .expect(...)` failure and the `String::from_utf8 ... .unwrap()`
failure are panics. -/
def readEntries (file : List Nat) : Nat → Nat → PResult (List FarFileInfo)
  | 0, _ => .ok []
  | n + 1, pos =>
    match readN file pos 4 with
    | none => .panic
    | some szB =>
      match readN file (pos + 4) 4 with
      | none => .panic
      | some _ =>
        match readN file (pos + 8) 4 with
        | none => .panic
        | some offB =>
          match readN file (pos + 12) 4 with
          | none => .panic
          | some lenB =>
            let nameLen := fromLE4 lenB
            match readN file (pos + 16) nameLen with
            | none => .panic
            | some nameB =>
              if utf8Valid nameB then
                match readEntries file n (pos + 16 + nameLen) with
                | .ok rest => .ok (⟨nameB, fromLE4 szB, fromLE4 offB⟩ :: rest)
                | r => r
              else .panic

/-- Source `list_files` (`farlib.rs` line 269): the slice `&file[12..]` panics when
the buffer is shorter than 12 bytes, the slice `&file[offset..]` when
`offset` exceeds the buffer length; both 4-byte reads are `unwrap`ped. -/
def list_files (file : List Nat) : PResult (List FarFileInfo) :=
  if file.length < 12 then .panic
  else
    match readN file 12 4 with
    | none => .panic
    | some offB =>
      let offset := fromLE4 offB
      if file.length < offset then .panic
      else
        match readN file offset 4 with
        | none => .panic
        | some cntB => readEntries file (fromLE4 cntB) (offset + 4)

/-- Source `test` (`farlib.rs` line 249): the only caller-visible error is the magic
mismatch; `list_files(file).expect(...)` turns any `Err` into a panic (in the
source `list_files` in fact never returns `Err`). -/
def test (file : List Nat) : PResult FarArchive :=
  match readN file 0 8 with
  | none => .panic
  | some magic =>
    if magic ≠ farMagic then .err "Not a Far archive"
    else
      match readN file 8 4 with
      | none => .panic
      | some vB =>
        match list_files file with
        | .ok files => .ok ⟨fromLE4 vB, files.length % U32, files, []⟩
        | _ => .panic

/-- Statement helper (spec wording, §4.4): the authoritative manifest offsets
of a file sequence written starting at `off` — each entry gets `off` plus the
running sum of the sizes of the preceding files. -/
def manifestOffsets (files : List FarFile) (off : Nat) : List Nat :=
  match files with
  | [] => []
  | f :: rest => off :: manifestOffsets rest (off + f.size)

/-- Side conditions under which one manifest record parses back exactly:
all numeric fields fit in `u32` and the name bytes are valid UTF-8. -/
def entryOK (e : FarFileInfo) : Prop :=
  e.size < U32 ∧ e.offset < U32 ∧ e.name.length < U32 ∧ utf8Valid e.name = true

example : utf8Valid [104, 105] = true := by decide
example : utf8Valid [255] = false := by decide
example : utf8Valid [0xC3, 0xA9] = true := by decide
example : utf8Valid [0xC3] = false := by decide
example : fromLE4 (toLE4 51) = 51 := by decide
example : to_vec (new_from_files []) =
    some (farMagic ++ toLE4 1 ++ toLE4 16 ++ toLE4 0) := by decide

theorem fromLE4_toLE4 (n : Nat) : fromLE4 (toLE4 n) = n % U32 := by
  simp only [fromLE4, toLE4, U32]
  omega

theorem toLE4_length (n : Nat) : (toLE4 n).length = 4 := rfl

theorem readN_of_drop (file suffix : List Nat) (pos k : Nat)
    (hd : file.drop pos = suffix) (hp : pos ≤ file.length)
    (hk : k ≤ suffix.length) :
    readN file pos k = some (suffix.take k) := by
  have hlen : suffix.length = file.length - pos := by
    rw [← hd, List.length_drop]
  rw [readN, if_pos (by omega), hd]

theorem drop_shift (file suffix : List Nat) (pos k : Nat)
    (hd : file.drop pos = suffix) :
    file.drop (pos + k) = suffix.drop k := by
  subst hd
  rw [List.drop_drop]

theorem writeList_length (files : List FarFile) :
    ∀ off, (writeList files off).length = files.length := by
  induction files with
  | nil => intro off; rfl
  | cons f rest ih => intro off; simp [writeList, ih]

theorem manifestLoop_some (loc : List FarFileInfo) :
    ∀ (k i : Nat), i + k ≤ loc.length →
      manifestLoop loc i k = some ((((loc.drop i).take k).map entryBytes).flatten) := by
  intro k
  induction k with
  | zero => intro i h; simp [manifestLoop]
  | succ k ih =>
    intro i h
    have hi : i < loc.length := by omega
    rw [manifestLoop, List.getElem?_eq_getElem hi, ih (i + 1) (by omega),
      List.drop_eq_getElem_cons hi]
    simp only [List.take_succ_cons, List.map_cons, List.flatten_cons]

theorem manifestLoop_none (loc : List FarFileInfo) :
    ∀ (k i : Nat), loc.length ≤ i + k → manifestLoop loc i (k + 1) = none := by
  intro k
  induction k with
  | zero =>
    intro i h
    rw [manifestLoop, List.getElem?_eq_none (show loc.length ≤ i by omega)]
  | succ k ih =>
    intro i h
    by_cases hi : i < loc.length
    · rw [manifestLoop, List.getElem?_eq_getElem hi, ih (i + 1) (by omega)]
    · rw [manifestLoop, List.getElem?_eq_none (by omega)]

/-- C8: building an archive from the empty file list and serialising it
yields exactly the 16-byte header (magic, version 1, manifest offset 16)
followed by the 4-byte little-endian zero file count — 20 bytes in total. -/
theorem c8_empty_archive_serialisation :
    to_vec (new_from_files []) = some (farMagic ++ toLE4 1 ++ toLE4 16 ++ toLE4 0) ∧
    Option.map List.length (to_vec (new_from_files [])) = some 20 ∧
    Option.map (fun l => fromLE4 ((l.drop 12).take 4)) (to_vec (new_from_files [])) =
      some 16 := by
  decide

/-- C2: on a buffer that ends in the middle of a manifest record — a valid
header, manifest offset 16, declared file count 1 and then no record bytes —
`test` aborts the process (an `expect` panic modelled by `PResult.panic`); it
does not return a typed truncation error to the caller. -/
theorem c2_truncated_manifest_panics :
    test (farMagic ++ toLE4 1 ++ toLE4 16 ++ toLE4 1) = PResult.panic := by
  decide

/-- C3: on a buffer whose single manifest entry declares a 1-byte name whose
byte `0xFF` is not valid UTF-8, `test` aborts the process (the
`String::from_utf8(...).unwrap()` panic modelled by `PResult.panic`); it does
not return a typed error to the caller. -/
theorem c3_invalid_utf8_panics :
    test (farMagic ++ toLE4 1 ++ toLE4 16 ++ toLE4 1 ++ toLE4 0 ++ toLE4 0 ++
      toLE4 16 ++ toLE4 1 ++ [255]) = PResult.panic := by
  decide

/-- C4: hydrating an archive whose entry has `offset + size` beyond the end
of the 20-byte source buffer aborts the process (the slice panic in
`FarFile::new_from_archive`, modelled by `none`); no error value is returned
to the caller. -/
theorem c4_offset_out_of_range_panics :
    new_from_archive [97] 10 100 (List.replicate 20 0) = none ∧
    load_file_data ⟨1, 1, [⟨[97], 10, 100⟩], []⟩ (List.replicate 20 0) = none := by
  decide

/-- C7: `test` rejects every buffer of length at least 8 whose first 8 bytes
differ from the magic `"FAR!byAZ"`, returning the invalid-magic error to the
caller, whatever the rest of the buffer holds. -/
theorem c7_invalid_magic (file : List Nat) (h8 : 8 ≤ file.length)
    (hm : file.take 8 ≠ farMagic) :
    test file = PResult.err "Not a Far archive" := by
  have h : readN file 0 8 = some (file.take 8) := by
    rw [readN, if_pos (by omega)]
    simp
  simp [test, h, hm]

theorem c7_invalid_magic_witness :
    test (List.replicate 8 0) = PResult.err "Not a Far archive" :=
  c7_invalid_magic (List.replicate 8 0) (by decide) (by decide)

/-- C10: the manifest loop of `to_vec` iterates over the length of the stored
`file_list` but indexes a local list derived from `file_data`, so `to_vec`
panics (returns `none`) exactly when `file_list` is longer than `file_data`,
and is total whenever `file_data` has at least as many elements. -/
theorem c10_to_vec_partiality :
    (∀ a : FarArchive, a.file_data.length < a.file_list.length → to_vec a = none) ∧
    (∀ a : FarArchive, a.file_list.length ≤ a.file_data.length →
      ∃ l, to_vec a = some l) := by
  constructor
  · intro a h
    have hml : manifestLoop (writeList a.file_data 16) 0 a.file_list.length = none := by
      obtain ⟨k, hk⟩ : ∃ k, a.file_list.length = k + 1 :=
        ⟨a.file_list.length - 1, by omega⟩
      rw [hk]
      exact manifestLoop_none _ k 0 (by rw [writeList_length]; omega)
    simp [to_vec, hml]
  · intro a h
    have hml := manifestLoop_some (writeList a.file_data 16) a.file_list.length 0
      (by rw [writeList_length]; omega)
    simp [to_vec, hml]

theorem c10_witness : to_vec ⟨1, 1, [⟨[97], 0, 0⟩], []⟩ = none :=
  c10_to_vec_partiality.1 ⟨1, 1, [⟨[97], 0, 0⟩], []⟩ (by decide)

theorem buildList_length (files : List FarFile) :
    ∀ off, (buildList files off).length = files.length := by
  induction files with
  | nil => intro off; rfl
  | cons f rest ih => intro off; simp [buildList, ih]

theorem buildList_offset (files : List FarFile) :
    ∀ (off : Nat), off + (files.map (·.size)).sum < U32 →
      ∀ (i : Nat), i < files.length →
        ((buildList files off)[i]?).map (·.offset) =
          some (off + ((files.take (i + 1)).map (·.size)).sum) := by
  induction files with
  | nil =>
    intro off hfit i hi
    simp at hi
  | cons f rest ih =>
    intro off hfit i hi
    have hmod : (off + f.size) % U32 = off + f.size := by
      apply Nat.mod_eq_of_lt
      simp at hfit
      omega
    cases i with
    | zero =>
      simp [buildList, hmod]
    | succ i =>
      have hstep : (buildList (f :: rest) off)[i + 1]? =
          (buildList rest ((off + f.size) % U32))[i]? := by
        simp [buildList]
      rw [hstep, hmod,
        ih (off + f.size) (by simp at hfit ⊢; omega) i (by simpa using hi)]
      simp only [Option.some.injEq, List.take_succ_cons, List.map_cons,
        List.sum_cons]
      omega

/-- C6: `new_from_files` fixes the version at 1 and stores, as the offset of
entry `i`, the sum of the sizes of files `0` through `i` *inclusive* (so the
first entry carries its own size as its offset). -/
theorem c6_new_from_files_offsets (files : List FarFile)
    (hfit : (files.map (·.size)).sum < U32) :
    (new_from_files files).version = 1 ∧
    ∀ (i : Nat) (h : i < (new_from_files files).file_list.length),
      ((new_from_files files).file_list.get ⟨i, h⟩).offset =
        ((files.take (i + 1)).map (·.size)).sum := by
  refine ⟨rfl, ?_⟩
  intro i h
  have hlen : i < files.length := by
    have h2 := h
    rw [show (new_from_files files).file_list = buildList files 0 from rfl,
      buildList_length] at h2
    exact h2
  have hb : i < (buildList files 0).length := by
    rw [buildList_length]
    exact hlen
  have h0 := buildList_offset files 0 (by omega) i hlen
  rw [List.getElem?_eq_getElem hb] at h0
  simp only [Option.map_some, Option.some.injEq, Nat.zero_add] at h0
  simpa [new_from_files, List.get_eq_getElem] using h0

theorem c6_witness :
    (new_from_files [⟨[97], 3, [1, 2, 3]⟩, ⟨[98], 2, [4, 5]⟩]).version = 1 ∧
    ∀ (i : Nat)
      (h : i < (new_from_files [⟨[97], 3, [1, 2, 3]⟩, ⟨[98], 2, [4, 5]⟩]).file_list.length),
      ((new_from_files [⟨[97], 3, [1, 2, 3]⟩, ⟨[98], 2, [4, 5]⟩]).file_list.get
          ⟨i, h⟩).offset =
        (([⟨[97], 3, [1, 2, 3]⟩, ⟨[98], 2, [4, 5]⟩].take (i + 1)).map
          (FarFile.size ·)).sum :=
  c6_new_from_files_offsets [⟨[97], 3, [1, 2, 3]⟩, ⟨[98], 2, [4, 5]⟩] (by decide)

/-- C9: hydration is idempotent — if `load_file_data` succeeds once, running
it again on its result with the same buffer returns that result unchanged
(bitwise-identical file data). -/
theorem c9_load_file_data_idempotent (a a2 : FarArchive) (buf : List Nat)
    (h : load_file_data a buf = some a2) :
    load_file_data a2 buf = some a2 := by
  rw [load_file_data] at h
  cases hl : loadAll a.file_list buf with
  | none => rw [hl] at h; exact absurd h (by simp)
  | some fd =>
    rw [hl] at h
    simp only [Option.some.injEq] at h
    rw [← h, load_file_data]
    simp [hl]

theorem c9_witness :
    load_file_data ⟨1, 1, [⟨[97], 2, 1⟩], [⟨[97], 2, [8, 7]⟩]⟩ [9, 8, 7, 6] =
      some ⟨1, 1, [⟨[97], 2, 1⟩], [⟨[97], 2, [8, 7]⟩]⟩ :=
  c9_load_file_data_idempotent ⟨1, 1, [⟨[97], 2, 1⟩], []⟩
    ⟨1, 1, [⟨[97], 2, 1⟩], [⟨[97], 2, [8, 7]⟩]⟩ [9, 8, 7, 6] (by decide)

theorem writeList_names (files : List FarFile) :
    ∀ off, (writeList files off).map (·.name) = files.map (·.name) := by
  induction files with
  | nil => intro off; rfl
  | cons f rest ih => intro off; simp [writeList, ih]

theorem writeList_sizes (files : List FarFile) :
    ∀ off, (writeList files off).map (·.size) = files.map (·.size) := by
  induction files with
  | nil => intro off; rfl
  | cons f rest ih => intro off; simp [writeList, ih]

theorem writeList_offsets (files : List FarFile) :
    ∀ off, off + (files.map (·.size)).sum < U32 →
      (writeList files off).map (·.offset) = manifestOffsets files off := by
  induction files with
  | nil => intro off h; rfl
  | cons f rest ih =>
    intro off h
    simp only [writeList, manifestOffsets, List.map_cons, List.cons.injEq]
    refine ⟨trivial, ?_⟩
    rw [Nat.mod_eq_of_lt (by simp at h; omega)]
    exact ih (off + f.size) (by simp at h ⊢; omega)

theorem writeList_entryOK (files : List FarFile) :
    ∀ off, off + (files.map (·.size)).sum < U32 →
      (∀ f ∈ files, utf8Valid f.name = true ∧ f.name.length < U32) →
      ∀ e ∈ writeList files off, entryOK e := by
  induction files with
  | nil =>
    intro off hfit hn e he
    simp [writeList] at he
  | cons f rest ih =>
    intro off hfit hn e he
    simp only [List.map_cons, List.sum_cons] at hfit
    simp only [writeList, List.mem_cons] at he
    rcases he with rfl | he
    · obtain ⟨hu, hl⟩ := hn f (List.mem_cons_self f rest)
      show f.size < U32 ∧ off < U32 ∧ f.name.length < U32 ∧
        utf8Valid f.name = true
      exact ⟨by omega, by omega, hl, hu⟩
    · rw [Nat.mod_eq_of_lt (by omega)] at he
      exact ih (off + f.size) (by omega)
        (fun g hg => hn g (List.mem_cons_of_mem f hg)) e he

theorem foldl_sizes (files : List FarFile) :
    ∀ acc, acc + (files.map (·.size)).sum < U32 →
      files.foldl (fun a f => (a + f.size) % U32) acc =
        acc + (files.map (·.size)).sum := by
  induction files with
  | nil => intro acc h; simp
  | cons f rest ih =>
    intro acc h
    simp only [List.map_cons, List.sum_cons] at h
    simp only [List.foldl_cons, List.map_cons, List.sum_cons]
    rw [Nat.mod_eq_of_lt (by omega), ih (acc + f.size) (by omega)]
    omega

theorem readN_bound (file l : List Nat) (pos k : Nat)
    (h : readN file pos k = some l) : pos + k ≤ file.length := by
  by_cases hc : pos + k ≤ file.length
  · exact hc
  · rw [readN, if_neg hc] at h
    exact absurd h (by simp)

theorem readN_prefix (buf pre post : List Nat) (pos k pos2 : Nat)
    (hd : buf.drop pos = pre ++ post) (hp : pos ≤ buf.length)
    (hlen : pre.length = k) (hpos2 : pos2 = pos + k) :
    readN buf pos k = some pre ∧ buf.drop pos2 = post := by
  constructor
  · have h := readN_of_drop buf (pre ++ post) pos k hd hp
      (by rw [List.length_append, hlen]; omega)
    rwa [List.take_left' hlen] at h
  · rw [hpos2, drop_shift buf (pre ++ post) pos k hd, List.drop_left' hlen]

theorem flatten_data_length (files : List FarFile)
    (hsz : ∀ f ∈ files, f.size = f.data.length) :
    ((files.map (·.data)).flatten).length = (files.map (·.size)).sum := by
  rw [List.length_flatten, List.map_map]
  congr 1
  refine List.map_congr_left ?_
  intro f hf
  exact (hsz f hf).symm

theorem readEntries_encode (buf : List Nat) :
    ∀ (loc : List FarFileInfo) (pos : Nat),
      pos ≤ buf.length →
      buf.drop pos = (loc.map entryBytes).flatten →
      (∀ e ∈ loc, entryOK e) →
      readEntries buf loc.length pos = PResult.ok loc := by
  intro loc
  induction loc with
  | nil =>
    intro pos hp hd hok
    rfl
  | cons e rest ih =>
    intro pos hp hd hok
    obtain ⟨hsz, hoff, hnl, hutf⟩ := hok e (List.mem_cons_self e rest)
    have hflat : buf.drop pos =
        toLE4 e.size ++ (toLE4 e.size ++ (toLE4 e.offset ++
          (toLE4 e.name.length ++ (e.name ++ (rest.map entryBytes).flatten)))) := by
      rw [hd]
      simp [entryBytes, List.append_assoc]
    obtain ⟨r1, s1⟩ :=
      readN_prefix buf (toLE4 e.size) _ pos 4 (pos + 4) hflat hp rfl rfl
    have hb1 := readN_bound _ _ _ _ r1
    obtain ⟨r2, s2⟩ :=
      readN_prefix buf (toLE4 e.size) _ (pos + 4) 4 (pos + 8) s1 (by omega) rfl
        (by omega)
    have hb2 := readN_bound _ _ _ _ r2
    obtain ⟨r3, s3⟩ :=
      readN_prefix buf (toLE4 e.offset) _ (pos + 8) 4 (pos + 12) s2 (by omega) rfl
        (by omega)
    have hb3 := readN_bound _ _ _ _ r3
    obtain ⟨r4, s4⟩ :=
      readN_prefix buf (toLE4 e.name.length) _ (pos + 12) 4 (pos + 16) s3
        (by omega) rfl (by omega)
    have hb4 := readN_bound _ _ _ _ r4
    obtain ⟨r5, s5⟩ :=
      readN_prefix buf e.name ((rest.map entryBytes).flatten) (pos + 16)
        e.name.length (pos + 16 + e.name.length) s4 (by omega) rfl rfl
    have hb5 := readN_bound _ _ _ _ r5
    have hnl2 : fromLE4 (toLE4 e.name.length) = e.name.length := by
      rw [fromLE4_toLE4, Nat.mod_eq_of_lt hnl]
    have hrec := ih (pos + 16 + e.name.length) (by omega) s5
      (fun g hg => hok g (List.mem_cons_of_mem e hg))
    show readEntries buf (rest.length + 1) pos = PResult.ok (e :: rest)
    rw [readEntries]
    simp only [r1, r2, r3, r4, hnl2, r5, hutf, hrec, fromLE4_toLE4,
      Nat.mod_eq_of_lt hsz, Nat.mod_eq_of_lt hoff, if_true]

theorem loadAll_writeList (buf : List Nat) :
    ∀ (files : List FarFile) (off : Nat) (tail : List Nat),
      (∀ f ∈ files, f.size = f.data.length) →
      off + (files.map (·.size)).sum < U32 →
      off ≤ buf.length →
      buf.drop off = (files.map (·.data)).flatten ++ tail →
      loadAll (writeList files off) buf = some files := by
  intro files
  induction files with
  | nil =>
    intro off tail hsz hfit hp hd
    rfl
  | cons f rest ih =>
    intro off tail hsz hfit hp hd
    have hfs : f.size = f.data.length := hsz f (List.mem_cons_self f rest)
    simp only [List.map_cons, List.sum_cons] at hfit
    have hmod : (off + f.size) % U32 = off + f.size := Nat.mod_eq_of_lt (by omega)
    have hd2 : buf.drop off = f.data ++ ((rest.map (·.data)).flatten ++ tail) := by
      rw [hd]
      simp [List.append_assoc]
    obtain ⟨rD, sD⟩ := readN_prefix buf f.data ((rest.map (·.data)).flatten ++ tail)
      off f.size (off + f.size) hd2 hp hfs.symm rfl
    have hbD := readN_bound _ _ _ _ rD
    have hnfa : new_from_archive f.name f.size off buf = some f := by
      simp only [new_from_archive, hmod]
      rw [if_pos ⟨by omega, by omega⟩]
      have htake : (buf.drop off).take (off + f.size - off) = f.data := by
        rw [hd2]
        have h1 : off + f.size - off = f.data.length := by omega
        rw [h1, List.take_left]
      rw [htake]
    have hrec := ih (off + f.size) tail
      (fun g hg => hsz g (List.mem_cons_of_mem f hg)) (by omega) (by omega) sD
    show loadAll (⟨f.name, f.size, off⟩ :: writeList rest ((off + f.size) % U32))
      buf = some (f :: rest)
    rw [loadAll]
    dsimp only
    rw [hnfa, hmod, hrec]

theorem to_vec_ignores_file_list (a b : FarArchive)
    (hv : a.version = b.version) (hc : a.file_count = b.file_count)
    (hd : a.file_data = b.file_data) (hl : a.file_list.length = b.file_list.length) :
    to_vec a = to_vec b := by
  rw [to_vec, to_vec, hv, hc, hd, hl]

theorem roundtrip_core (files : List FarFile)
    (hsz : ∀ f ∈ files, f.size = f.data.length)
    (hname : ∀ f ∈ files, utf8Valid f.name = true ∧ f.name.length < U32)
    (hcnt : files.length < U32)
    (hfit : 16 + (files.map (·.size)).sum < U32) :
    ∃ buf,
      to_vec (new_from_files files) = some buf ∧
      readN buf 12 4 = some (toLE4 (16 + (files.map (·.size)).sum)) ∧
      test buf = PResult.ok ⟨1, files.length % U32, writeList files 16, []⟩ ∧
      load_file_data ⟨1, files.length % U32, writeList files 16, []⟩ buf =
        some ⟨1, files.length % U32, writeList files 16, files⟩ := by
  have hD : ((files.map (·.data)).flatten).length = (files.map (·.size)).sum :=
    flatten_data_length files hsz
  have hwlen : (writeList files 16).length = files.length := writeList_length files 16
  have hcnteq : files.length % U32 = files.length := Nat.mod_eq_of_lt hcnt
  have hone : 1 % U32 = 1 := by norm_num [U32]
  set B := farMagic ++ toLE4 1 ++ toLE4 (16 + (files.map (·.size)).sum) ++
    (files.map (·.data)).flatten ++ toLE4 files.length ++
    ((writeList files 16).map entryBytes).flatten with hB
  have h0 : B.drop 0 = farMagic ++ (toLE4 1 ++
      (toLE4 (16 + (files.map (·.size)).sum) ++ ((files.map (·.data)).flatten ++
        (toLE4 files.length ++ ((writeList files 16).map entryBytes).flatten)))) := by
    rw [hB, List.drop_zero]
    simp [List.append_assoc]
  obtain ⟨r1, s1⟩ := readN_prefix B farMagic _ 0 8 8 h0 (by omega) rfl rfl
  have hb1 := readN_bound _ _ _ _ r1
  obtain ⟨r2, s2⟩ := readN_prefix B (toLE4 1) _ 8 4 12 s1 (by omega) rfl rfl
  have hb2 := readN_bound _ _ _ _ r2
  obtain ⟨r3, s3⟩ := readN_prefix B (toLE4 (16 + (files.map (·.size)).sum)) _
    12 4 16 s2 (by omega) rfl rfl
  have hb3 := readN_bound _ _ _ _ r3
  obtain ⟨r4, s4⟩ := readN_prefix B ((files.map (·.data)).flatten) _
    16 ((files.map (·.size)).sum) (16 + (files.map (·.size)).sum) s3 (by omega)
    hD rfl
  have hb4 := readN_bound _ _ _ _ r4
  obtain ⟨r5, s5⟩ := readN_prefix B (toLE4 files.length)
    (((writeList files 16).map entryBytes).flatten)
    (16 + (files.map (·.size)).sum) 4 (16 + (files.map (·.size)).sum + 4) s4
    (by omega) rfl rfl
  have hb5 := readN_bound _ _ _ _ r5
  have hre : readEntries B files.length (16 + (files.map (·.size)).sum + 4) =
      PResult.ok (writeList files 16) := by
    have h := readEntries_encode B (writeList files 16)
      (16 + (files.map (·.size)).sum + 4) (by omega) s5
      (writeList_entryOK files 16 hfit hname)
    rwa [hwlen] at h
  have hc1 : ¬ (B.length < 12) := by omega
  have hc2 : ¬ (B.length < 16 + (files.map (·.size)).sum) := by omega
  have hlf : list_files B = PResult.ok (writeList files 16) := by
    simp [list_files, hc1, hc2, r3, r5, fromLE4_toLE4, Nat.mod_eq_of_lt hfit,
      hcnteq, hre]
  have htv : to_vec (new_from_files files) = some B := by
    have hml : manifestLoop (writeList files 16) 0 files.length =
        some (((writeList files 16).map entryBytes).flatten) := by
      have h := manifestLoop_some (writeList files 16) files.length 0
        (by rw [hwlen]; omega)
      rwa [List.drop_zero, List.take_of_length_le (le_of_eq hwlen)] at h
    have hfoldl : files.foldl (fun a f => (a + f.size) % U32) 16 =
        16 + (files.map (·.size)).sum := foldl_sizes files 16 hfit
    show to_vec ⟨1, files.length % U32, buildList files 0, files⟩ = some B
    rw [to_vec]
    dsimp only
    rw [buildList_length files 0, hml, hfoldl, hcnteq, hB]
  have htest : test B = PResult.ok ⟨1, files.length % U32, writeList files 16, []⟩ := by
    simp [test, r1, r2, hlf, fromLE4_toLE4, hone, hwlen]
  have hload : load_file_data ⟨1, files.length % U32, writeList files 16, []⟩ B =
      some ⟨1, files.length % U32, writeList files 16, files⟩ := by
    have hla : loadAll (writeList files 16) B = some files :=
      loadAll_writeList B files 16
        (toLE4 files.length ++ ((writeList files 16).map entryBytes).flatten)
        hsz hfit (by omega) s3
    simp [load_file_data, hla]
  exact ⟨B, htv, r3, htest, hload⟩

/-- C1: round-trip — building an archive from a non-empty list of files whose
size fields match their data lengths (with the `u32` range conditions the
wire format imposes: total data size, name lengths and file count below
`2^32`), serialising it, decoding the buffer with `test` and hydrating with
`load_file_data` returns the original names, sizes and data bytes in order. -/
theorem c1_roundtrip (files : List FarFile)
    (hne : files ≠ [])
    (hsz : ∀ f ∈ files, f.size = f.data.length)
    (hname : ∀ f ∈ files, utf8Valid f.name = true ∧ f.name.length < U32)
    (hcnt : files.length < U32)
    (hfit : 16 + (files.map (·.size)).sum < U32) :
    ∃ buf arch arch2,
      to_vec (new_from_files files) = some buf ∧
      test buf = PResult.ok arch ∧
      load_file_data arch buf = some arch2 ∧
      arch2.file_list.map (·.name) = files.map (·.name) ∧
      arch2.file_list.map (·.size) = files.map (·.size) ∧
      arch2.file_data = files := by
  obtain ⟨buf, htv, hr, htest, hload⟩ := roundtrip_core files hsz hname hcnt hfit
  exact ⟨buf, _, _, htv, htest, hload,
    writeList_names files 16, writeList_sizes files 16, rfl⟩

theorem c1_witness :
    ∃ buf arch arch2,
      to_vec (new_from_files [⟨[97], 3, [10, 20, 30]⟩]) = some buf ∧
      test buf = PResult.ok arch ∧
      load_file_data arch buf = some arch2 ∧
      arch2.file_list.map (·.name) = [[97]] ∧
      arch2.file_list.map (·.size) = [3] ∧
      arch2.file_data = [⟨[97], 3, [10, 20, 30]⟩] := by
  have h := c1_roundtrip [⟨[97], 3, [10, 20, 30]⟩] (by decide) (by decide)
    (by decide) (by decide) (by decide)
  simpa using h

/-- C5: serialising recomputes every manifest offset as 16 plus the running
sum of the sizes of the preceding files and writes `manifest_offset` equal to
16 plus the total data size, ignoring whatever offsets the stored in-memory
entries carried (only their count matters). -/
theorem c5_recomputed_offsets (files : List FarFile)
    (hsz : ∀ f ∈ files, f.size = f.data.length)
    (hname : ∀ f ∈ files, utf8Valid f.name = true ∧ f.name.length < U32)
    (hcnt : files.length < U32)
    (hfit : 16 + (files.map (·.size)).sum < U32) :
    ∃ buf arch,
      to_vec (new_from_files files) = some buf ∧
      test buf = PResult.ok arch ∧
      arch.file_list.map (·.offset) = manifestOffsets files 16 ∧
      readN buf 12 4 = some (toLE4 (16 + (files.map (·.size)).sum)) ∧
      ∀ infos : List FarFileInfo, infos.length = files.length →
        to_vec ⟨1, files.length % U32, infos, files⟩ =
          to_vec (new_from_files files) := by
  obtain ⟨buf, htv, hr, htest, _⟩ := roundtrip_core files hsz hname hcnt hfit
  refine ⟨buf, _, htv, htest, writeList_offsets files 16 hfit, hr, ?_⟩
  intro infos hl
  exact to_vec_ignores_file_list _ _ rfl rfl rfl
    (by simp [new_from_files, buildList_length, hl])

theorem c5_witness :
    ∃ buf arch,
      to_vec (new_from_files
        [⟨[97], 10, List.replicate 10 0⟩, ⟨[98], 20, List.replicate 20 0⟩,
          ⟨[99], 5, List.replicate 5 0⟩]) = some buf ∧
      test buf = PResult.ok arch ∧
      arch.file_list.map (·.offset) = [16, 26, 46] ∧
      readN buf 12 4 = some (toLE4 51) := by
  have h := c5_recomputed_offsets
    [⟨[97], 10, List.replicate 10 0⟩, ⟨[98], 20, List.replicate 20 0⟩,
      ⟨[99], 5, List.replicate 5 0⟩]
    (by decide) (by decide) (by decide) (by decide)
  obtain ⟨buf, arch, h1, h2, h3, h4, _⟩ := h
  refine ⟨buf, arch, h1, h2, ?_, ?_⟩
  · rw [h3]
    decide
  · have e : 16 + (([⟨[97], 10, List.replicate 10 0⟩, ⟨[98], 20, List.replicate 20 0⟩,
        ⟨[99], 5, List.replicate 5 0⟩] : List FarFile).map (·.size)).sum = 51 := by
      decide
    rwa [e] at h4
